import Mathlib

/-!
A shallow embedding of the connection-pool core (`src/pool.rs`) of the pgcat
PostgreSQL pooler, together with proofs of the specification's claims about it.

Modelling conventions:
* Rust `Vec` indexing (`v[i]`), which panics out of bounds, is modelled with
  `Option`-returning access: a `none` result marks a panic.
* The per-shard `HashMap<Address, NaiveDateTime>` ban maps are modelled as
  association lists with replace-on-insert semantics; `NaiveDateTime`
  timestamps are modelled by their whole-second `Int` value (`.timestamp()`).
* Randomness (the candidate shuffle) and I/O outcomes (bb8 checkouts, health
  checks, warm-up connects) are supplied as explicit oracle parameters.
-/

namespace Pgcat

/-- Server role (`config::Role`). -/
inductive Role
  | Primary
  | Replica
deriving DecidableEq

/-- Load-balancing policy (`config::LoadBalancingMode`). -/
inductive LoadBalancingMode
  | Random
  | LeastOutstandingConnections
deriving DecidableEq

/-- `config::Address`: identity of one upstream endpoint.  Equality and
hashing use the full tuple, as in the Rust `derive`. -/
structure Address where
  id : Nat
  database : String
  host : String
  port : Nat
  role : Role
  address_index : Nat
  replica_number : Nat
  shard : Nat
  username : String
  pool_name : String
deriving DecidableEq

/-- Error kinds surfaced by the pool core (`errors::Error` is outside this
file; the constructors named by `pool.rs` and spec §7 are modelled). -/
inductive Error
  | AllServersDown
  | CheckoutError
  | ConfigError
deriving DecidableEq

/-- One per-shard ban map: `HashMap<Address, NaiveDateTime>`. -/
abbrev BanMap := List (Address × Int)

/-- The full ban list: one map per shard (`Vec<HashMap<Address, NaiveDateTime>>`). -/
abbrev BanState := List BanMap

/-- `HashMap::get` on a ban map. -/
def banLookup (m : BanMap) (a : Address) : Option Int :=
  (m.find? (fun p => p.1 == a)).map (fun p => p.2)

/-- `HashMap::remove` on a ban map (keeps every entry with a different key). -/
def banRemove (m : BanMap) (a : Address) : BanMap :=
  m.filter (fun p => ¬ p.1 == a)

/-- `HashMap::insert` on a ban map: replaces any existing entry for the key. -/
def banInsert (m : BanMap) (a : Address) (t : Int) : BanMap :=
  (a, t) :: banRemove m a

/-- Pool settings (`PoolSettings`); fields not consulted by the verified
operations (pool_mode, user, sharding fields, flags) are omitted. -/
structure PoolSettings where
  load_balancing_mode : LoadBalancingMode
  shards : Nat
  default_role : Option Role
  healthcheck_timeout : Nat
  healthcheck_delay : Nat
  ban_time : Int
deriving DecidableEq

/-- A server session (`server::Server`) as seen by the acquisition path:
its id, the elapsed milliseconds since its last activity, and the outcome
its health-check query (`;`) would have, timeout included. -/
structure Server where
  server_id : Int
  last_activity_elapsed_ms : Nat
  health_check_ok : Bool
deriving DecidableEq

/-- One bb8 pool for one endpoint: the `state()` snapshot counters
(`u32` in bb8, modelled as `Nat`) plus an oracle field giving the outcome
of the next `get()` checkout (`none` = checkout error). -/
structure SlotPool where
  connections : Nat
  idle_connections : Nat
  checkout : Option Server
deriving DecidableEq

/-- `ConnectionPool`: the bb8 pools and addresses matrices plus settings.
The interior-mutable `banlist` is threaded separately as a `BanState`;
`server_info` is the validation-time capture. -/
structure ConnectionPool where
  databases : List (List SlotPool)
  addresses : List (List Address)
  server_info : String
  settings : PoolSettings
deriving DecidableEq

/-- `ConnectionPool::ban`: primaries are never banned; otherwise insert
`address -> now` into `banlist[address.shard]` (panic if the shard index is
out of bounds, modelled as `none`). -/
def ban (st : BanState) (now : Int) (a : Address) : Option BanState :=
  if a.role = Role.Primary then
    some st
  else
    match st[a.shard]? with
    | none => none
    | some m => some (st.set a.shard (banInsert m a now))

/-- `ConnectionPool::_unban`: unconditionally remove the entry. -/
def unbanForce (st : BanState) (a : Address) : Option BanState :=
  match st[a.shard]? with
  | none => none
  | some m => some (st.set a.shard (banRemove m a))

/-- `ConnectionPool::is_banned`: membership in `banlist[address.shard]`. -/
def is_banned (st : BanState) (a : Address) : Option Bool :=
  (st[a.shard]?).map (fun m => (banLookup m a).isSome)

/-- The number of configured replicas in a shard's address row
(`replicas_available` in `try_unban`). -/
def replicasAvailable (row : List Address) : Nat :=
  (row.filter (fun x => x.role == Role.Replica)).length

/-- `ConnectionPool::try_unban`: primaries yield `true` unchanged; if every
replica of the shard is banned (ban-map size equals the replica count) the
whole shard ban map is cleared; otherwise a present entry is removed exactly
when its age strictly exceeds `ban_time`, and an absent entry yields `true`. -/
def try_unban (pool : ConnectionPool) (st : BanState) (now : Int) (a : Address) :
    Option (Bool × BanState) :=
  if a.role = Role.Primary then
    some (true, st)
  else
    match pool.addresses[a.shard]?, st[a.shard]? with
    | some row, some m =>
      if m.length = replicasAvailable row then
        some (true, st.set a.shard [])
      else
        match banLookup m a with
        | none => some (true, st)
        | some t0 =>
          if now - t0 > pool.settings.ban_time then
            some (true, st.set a.shard (banRemove m a))
          else
            some (false, st)
    | _, _ => none

/-- `ConnectionPool::pool_state`: the bb8 pool for `(shard, server)`. -/
def pool_state (pool : ConnectionPool) (shard server : Nat) : Option SlotPool :=
  (pool.databases[shard]?).bind (fun row => row[server]?)

/-- `ConnectionPool::busy_connection_count`: clamp to zero when
`idle > connections`, else subtract. -/
def busy_connection_count (pool : ConnectionPool) (a : Address) : Option Nat :=
  (pool_state pool a.shard a.address_index).map (fun s =>
    if s.idle_connections > s.connections then 0
    else s.connections - s.idle_connections)

/-! ### Basic facts about the ban-state operations -/

theorem mem_of_getElemOpt {α : Type} {l : List α} {i : Nat} {a : α}
    (h : l[i]? = some a) : a ∈ l := by
  obtain ⟨hlt, rfl⟩ := List.getElem?_eq_some.mp h
  exact List.getElem_mem hlt

theorem role_eq_replica_of_ne_primary {r : Role} (h : ¬ r = Role.Primary) :
    r = Role.Replica := by
  cases r
  · exact absurd rfl h
  · rfl

/-- Shape of the states `ban` can produce. -/
theorem ban_state_cases {st : BanState} {now : Int} {a : Address} {st' : BanState}
    (h : ban st now a = some st') :
    st' = st ∨
      ∃ m, st[a.shard]? = some m ∧ a.role = Role.Replica ∧
        st' = st.set a.shard (banInsert m a now) := by
  unfold ban at h
  split at h
  · exact Or.inl (Option.some.inj h).symm
  · rename_i hrole
    split at h
    · exact absurd h (by simp)
    · rename_i m hm
      exact Or.inr ⟨m, hm, role_eq_replica_of_ne_primary hrole, (Option.some.inj h).symm⟩

/-- Shape of the states `try_unban` can produce. -/
theorem try_unban_state_cases {pool : ConnectionPool} {st : BanState} {now : Int}
    {a : Address} {b : Bool} {st' : BanState}
    (h : try_unban pool st now a = some (b, st')) :
    st' = st ∨ st' = st.set a.shard [] ∨
      ∃ m, st[a.shard]? = some m ∧ st' = st.set a.shard (banRemove m a) := by
  unfold try_unban at h
  split at h
  · exact Or.inl (congrArg Prod.snd (Option.some.inj h)).symm
  · split at h
    · rename_i row m hrow hm
      split at h
      · exact Or.inr (Or.inl (congrArg Prod.snd (Option.some.inj h)).symm)
      · split at h
        · exact Or.inl (congrArg Prod.snd (Option.some.inj h)).symm
        · split at h
          · exact Or.inr (Or.inr ⟨m, hm, (congrArg Prod.snd (Option.some.inj h)).symm⟩)
          · exact Or.inl (congrArg Prod.snd (Option.some.inj h)).symm
    · exact absurd h (by simp)

/-- Shape of the states `unbanForce` can produce. -/
theorem unbanForce_state_cases {st : BanState} {a : Address} {st' : BanState}
    (h : unbanForce st a = some st') :
    ∃ m, st[a.shard]? = some m ∧ st' = st.set a.shard (banRemove m a) := by
  unfold unbanForce at h
  split at h
  · exact absurd h (by simp)
  · rename_i m hm
    exact ⟨m, hm, (Option.some.inj h).symm⟩

theorem length_of_ban {st : BanState} {now : Int} {a : Address} {st' : BanState}
    (h : ban st now a = some st') : st'.length = st.length := by
  rcases ban_state_cases h with rfl | ⟨m, _, _, rfl⟩
  · rfl
  · exact List.length_set ..

theorem length_of_try_unban {pool : ConnectionPool} {st : BanState} {now : Int}
    {a : Address} {b : Bool} {st' : BanState}
    (h : try_unban pool st now a = some (b, st')) : st'.length = st.length := by
  rcases try_unban_state_cases h with rfl | rfl | ⟨m, _, rfl⟩
  · rfl
  · exact List.length_set ..
  · exact List.length_set ..

/-! ### Reachable ban states and the primaries-are-never-banned invariant -/

/-- Ban states reachable from a fresh pool (one empty map per shard) through
the mutating operations of the pool core.  `get` mutates the ban list only
through `ban` and `try_unban`, so its effects factor through these steps. -/
inductive Reachable (pool : ConnectionPool) : BanState → Prop
  | init (n : Nat) : Reachable pool (List.replicate n [])
  | banStep {st st' : BanState} {now : Int} {a : Address} :
      Reachable pool st → ban st now a = some st' → Reachable pool st'
  | tryUnbanStep {st st' : BanState} {now : Int} {a : Address} {b : Bool} :
      Reachable pool st → try_unban pool st now a = some (b, st') → Reachable pool st'
  | unbanStep {st st' : BanState} {a : Address} :
      Reachable pool st → unbanForce st a = some st' → Reachable pool st'

/-- Every entry of every shard's ban map is keyed by a replica address. -/
def ReplicasOnly (st : BanState) : Prop :=
  ∀ m ∈ st, ∀ p ∈ m, (p : Address × Int).1.role = Role.Replica

theorem replicasOnly_set {st : BanState} {i : Nat} {m : BanMap}
    (hst : ReplicasOnly st)
    (hm : ∀ p ∈ m, (p : Address × Int).1.role = Role.Replica) :
    ReplicasOnly (st.set i m) := by
  intro m' hm' p hp
  rcases List.mem_or_eq_of_mem_set hm' with h | h
  · exact hst m' h p hp
  · subst h; exact hm p hp

theorem replicasOnly_of_reachable {pool : ConnectionPool} {st : BanState}
    (h : Reachable pool st) : ReplicasOnly st := by
  induction h with
  | init n =>
    intro m hm p hp
    rw [List.eq_of_mem_replicate hm] at hp
    cases hp
  | banStep hr heq ih =>
    rcases ban_state_cases heq with rfl | ⟨m, hm, hrole, rfl⟩
    · exact ih
    · refine replicasOnly_set ih ?_
      intro p hp
      rcases List.mem_cons.mp hp with h | h
      · subst h; exact hrole
      · exact ih _ (mem_of_getElemOpt hm) p (List.mem_of_mem_filter h)
  | tryUnbanStep hr heq ih =>
    rcases try_unban_state_cases heq with rfl | rfl | ⟨m, hm, rfl⟩
    · exact ih
    · exact replicasOnly_set ih (by intro p hp; cases hp)
    · exact replicasOnly_set ih
        (fun p hp => ih _ (mem_of_getElemOpt hm) p (List.mem_of_mem_filter hp))
  | unbanStep hr heq ih =>
    obtain ⟨m, hm, rfl⟩ := unbanForce_state_cases heq
    exact replicasOnly_set ih
      (fun p hp => ih _ (mem_of_getElemOpt hm) p (List.mem_of_mem_filter hp))

/-! ### Concrete fixtures used by witnesses -/

/-- Fixture: a primary address in shard 0. -/
def fixPrimary : Address :=
  { id := 0, database := "db", host := "hA", port := 5432, role := Role.Primary,
    address_index := 0, replica_number := 0, shard := 0,
    username := "user", pool_name := "pl" }

/-- Fixture: a replica address in shard 0. -/
def fixReplica : Address :=
  { id := 1, database := "db", host := "hB", port := 5433, role := Role.Replica,
    address_index := 1, replica_number := 0, shard := 0,
    username := "user", pool_name := "pl" }

/-- Fixture: default pool settings. -/
def fixSettings : PoolSettings :=
  { load_balancing_mode := LoadBalancingMode.Random, shards := 1,
    default_role := none, healthcheck_timeout := 1000,
    healthcheck_delay := 30000, ban_time := 60 }

/-- Fixture: an idle slot pool. -/
def fixSlot : SlotPool := { connections := 0, idle_connections := 0, checkout := none }

/-- Fixture: a one-shard pool with one primary and one replica. -/
def fixPool : ConnectionPool :=
  { databases := [[fixSlot, fixSlot]], addresses := [[fixPrimary, fixReplica]],
    server_info := "", settings := fixSettings }

/-! ### Claim C2: primaries are never banned -/

/-- C2: For every `Address` with role `Primary` and every reachable ban state:
`ban` leaves the ban list unchanged (no entry is inserted), `is_banned`
returns `false`, and `try_unban` returns `true` without touching the state. -/
theorem claim_C2_primary_never_banned (pool : ConnectionPool) (st : BanState)
    (now : Int) (a : Address) (hr : Reachable pool st)
    (hrole : a.role = Role.Primary) :
    ban st now a = some st ∧
    (a.shard < st.length → is_banned st a = some false) ∧
    try_unban pool st now a = some (true, st) := by
  refine ⟨by simp [ban, hrole], ?_, by simp [try_unban, hrole]⟩
  intro hlt
  have hro := replicasOnly_of_reachable hr
  unfold is_banned
  rw [List.getElem?_eq_getElem hlt]
  simp only [Option.map_some']
  have : banLookup st[a.shard] a = none := by
    unfold banLookup
    cases hfind : st[a.shard].find? (fun p => p.1 == a) with
    | none => rfl
    | some p =>
      have hpa : p.1 = a := by
        have := List.find?_some hfind
        exact eq_of_beq this
      have hrep : p.1.role = Role.Replica :=
        hro _ (List.getElem_mem hlt) p (List.mem_of_find?_eq_some hfind)
      rw [hpa, hrole] at hrep
      cases hrep
  rw [this]
  rfl

/-- Witness for C2 at a concrete reachable state. -/
theorem claim_C2_witness :
    ban [[]] 0 fixPrimary = some [[]] ∧
    is_banned [[]] fixPrimary = some false ∧
    try_unban fixPool [[]] 0 fixPrimary = some (true, [[]]) := by
  obtain ⟨h1, h2, h3⟩ :=
    claim_C2_primary_never_banned fixPool [[]] 0 fixPrimary (Reachable.init 1) rfl
  exact ⟨h1, h2 (by decide), h3⟩

/-! ### Claim C8: busy connection count is clamped -/

/-- The zero-clamp of `busy_connection_count` computes
`max 0 (connections - idle_connections)`. -/
theorem busy_count_eq_max (pool : ConnectionPool) (a : Address) (s : SlotPool)
    (h : pool_state pool a.shard a.address_index = some s) :
    busy_connection_count pool a =
      some ((max 0 ((s.connections : Int) - (s.idle_connections : Int))).toNat) := by
  unfold busy_connection_count
  rw [h]
  simp only [Option.map_some']
  congr 1
  by_cases hc : s.idle_connections > s.connections
  · rw [if_pos hc]; omega
  · rw [if_neg hc]; omega

/-- C8: For every address whose slot pool exists, `busy_connection_count`
returns (never panics, even when `idle > connections`) exactly
`max 0 (connections - idle_connections)`. -/
theorem claim_C8_busy_clamped (pool : ConnectionPool) (a : Address) (s : SlotPool)
    (h : pool_state pool a.shard a.address_index = some s) :
    busy_connection_count pool a =
      some ((max 0 ((s.connections : Int) - (s.idle_connections : Int))).toNat) :=
  busy_count_eq_max pool a s h

/-- Fixture: a slot-pool state with more idle than provisioned connections. -/
def fixSlotOver : SlotPool := { connections := 2, idle_connections := 5, checkout := none }

/-- Fixture pool exposing `fixSlotOver` at shard 0, server 0. -/
def fixPool8 : ConnectionPool :=
  { databases := [[fixSlotOver]], addresses := [[fixPrimary]],
    server_info := "", settings := fixSettings }

/-- Witness for C8 on a state with `idle > connections`. -/
theorem claim_C8_witness :
    busy_connection_count fixPool8 fixPrimary =
      some ((max 0 ((2 : Int) - (5 : Int))).toNat) :=
  claim_C8_busy_clamped fixPool8 fixPrimary fixSlotOver rfl

/-! ### Claim C5: ban expiry for a single replica -/

/-- C5: For a banned replica (outside the all-replicas-banned case),
`try_unban` removes the entry and returns `true` exactly when the entry's age
strictly exceeds `ban_time` (whole seconds); otherwise it returns `false`
leaving the entry in place.  Consequently any call at
`now ≥ t0 + ban_time + 1` removes the entry, and an absent entry yields
`true`. -/
theorem claim_C5_ban_expiry (pool : ConnectionPool) (st : BanState) (now : Int)
    (a : Address) (row : List Address) (m : BanMap)
    (hrow : pool.addresses[a.shard]? = some row)
    (hm : st[a.shard]? = some m)
    (hrole : a.role = Role.Replica)
    (hnotall : m.length ≠ replicasAvailable row) :
    (banLookup m a = none → try_unban pool st now a = some (true, st)) ∧
    (∀ t0, banLookup m a = some t0 →
      try_unban pool st now a =
        (if now - t0 > pool.settings.ban_time
         then some (true, st.set a.shard (banRemove m a))
         else some (false, st))) ∧
    (∀ t0, banLookup m a = some t0 → t0 + pool.settings.ban_time + 1 ≤ now →
      try_unban pool st now a = some (true, st.set a.shard (banRemove m a))) := by
  refine ⟨?_, ?_, ?_⟩
  · intro h
    simp [try_unban, hrole, hrow, hm, hnotall, h]
  · intro t0 h
    simp [try_unban, hrole, hrow, hm, hnotall, h]
  · intro t0 h hle
    have hgt : now - t0 > pool.settings.ban_time := by omega
    simp [try_unban, hrole, hrow, hm, hnotall, h, hgt]

/-- Fixture: a second replica address in shard 0. -/
def fixReplica2 : Address :=
  { id := 2, database := "db", host := "hC", port := 5434, role := Role.Replica,
    address_index := 2, replica_number := 1, shard := 0,
    username := "user", pool_name := "pl" }

/-- Fixture: a one-shard pool with one primary and two replicas. -/
def fixPool5 : ConnectionPool :=
  { databases := [[fixSlot, fixSlot, fixSlot]],
    addresses := [[fixPrimary, fixReplica, fixReplica2]],
    server_info := "", settings := fixSettings }

/-- Witness for C5: an entry aged past `ban_time` is removed. -/
theorem claim_C5_witness :
    try_unban fixPool5 [[(fixReplica, 0)]] 100 fixReplica = some (true, [[]]) := by
  have h := (claim_C5_ban_expiry fixPool5 [[(fixReplica, 0)]] 100 fixReplica
      [fixPrimary, fixReplica, fixReplica2] [(fixReplica, 0)]
      rfl rfl rfl (by decide)).2.2 0 (by decide) (by decide)
  exact h.trans (by decide)

/-! ### Claim C4: bulk unban when every replica is banned -/

/-- C4 counterexample: with every replica of shard 0 banned, `try_unban` on
the shard's *primary* address returns `true` but leaves the ban map
untouched, so the claim fails for "every address in shard s". -/
theorem claim_C4_counterexample :
    try_unban fixPool [[(fixReplica, 0)]] 0 fixPrimary =
      some (true, [[(fixReplica, 0)]]) ∧
    ([[(fixReplica, (0 : Int))]] : BanState) ≠ [[]] := by
  refine ⟨by decide, by decide⟩

/-- C4 (amended): for every *Replica-role* address `a` of shard `s`, when the
keys of `banlist[s]` are exactly the configured replicas of the shard,
`try_unban(a)` clears `banlist[s]` entirely and returns `true` (for a
Primary-role address it returns `true` but leaves the map unchanged). -/
theorem claim_C4_amended (pool : ConnectionPool) (st : BanState) (now : Int)
    (a : Address) (row : List Address) (m : BanMap)
    (hrow : pool.addresses[a.shard]? = some row)
    (hm : st[a.shard]? = some m)
    (hrole : a.role = Role.Replica)
    (hkeysnd : (m.map Prod.fst).Nodup)
    (hrownd : row.Nodup)
    (hcover : ∀ x : Address, x ∈ m.map Prod.fst ↔ x ∈ row ∧ x.role = Role.Replica) :
    try_unban pool st now a = some (true, st.set a.shard []) := by
  have hlen : m.length = replicasAvailable row := by
    have hnd2 : (row.filter (fun x => x.role == Role.Replica)).Nodup :=
      hrownd.filter _
    have hmemiff : ∀ x, x ∈ m.map Prod.fst ↔
        x ∈ row.filter (fun x => x.role == Role.Replica) := by
      intro x
      rw [List.mem_filter]
      simp only [beq_iff_eq]
      exact hcover x
    have hfs : (m.map Prod.fst).toFinset =
        (row.filter (fun x => x.role == Role.Replica)).toFinset := by
      ext x
      simp only [List.mem_toFinset]
      exact hmemiff x
    have hlen2 : (m.map Prod.fst).length =
        (row.filter (fun x => x.role == Role.Replica)).length := by
      rw [← List.toFinset_card_of_nodup hkeysnd, ← List.toFinset_card_of_nodup hnd2, hfs]
    have hlm : (m.map Prod.fst).length = m.length := List.length_map ..
    unfold replicasAvailable
    omega
  simp [try_unban, hrole, hrow, hm, hlen]

/-- Witness for C4 (amended) on a shard whose single replica is banned. -/
theorem claim_C4_witness :
    try_unban fixPool [[(fixReplica, 7)]] 0 fixReplica =
      some (true, [[(fixReplica, 7)]].set 0 []) := by
  apply claim_C4_amended fixPool [[(fixReplica, 7)]] 0 fixReplica
      [fixPrimary, fixReplica] [(fixReplica, 7)] rfl rfl rfl (by decide) (by decide)
  intro x
  simp only [List.map_cons, List.map_nil, List.mem_singleton, List.mem_cons,
    List.not_mem_nil, or_false]
  constructor
  · rintro rfl
    exact ⟨Or.inr rfl, rfl⟩
  · rintro ⟨hx | hx, hr⟩
    · subst hx
      exact absurd hr (by decide)
    · exact hx

/-! ### Address construction in `from_config` -/

/-- A configured server entry (`config::ServerConfig`: host, port, role). -/
structure ServerConf where
  host : String
  port : Nat
  role : Role
deriving DecidableEq

/-- The per-shard address-construction loop of `from_config`
(`for (address_index, server) in shard.servers.iter().enumerate()`): each
address receives the *current* `replica_number`, and the counter is advanced
only after a `Replica` entry; `address_index` and the global `address_id`
advance on every entry. -/
def buildServers (db uname pname : String) (shardKey : Nat) :
    List ServerConf → Nat → Nat → Nat → List Address
  | [], _, _, _ => []
  | s :: rest, idx, rnum, aid =>
    { id := aid, database := db, host := s.host, port := s.port, role := s.role,
      address_index := idx, replica_number := rnum, shard := shardKey,
      username := uname, pool_name := pname } ::
      buildServers db uname pname shardKey rest (idx + 1)
        (if s.role == Role.Replica then rnum + 1 else rnum) (aid + 1)

/-- Generalized replica-numbering invariant of the construction loop. -/
theorem buildServers_replica_number (db uname pname : String) (shardKey : Nat) :
    ∀ (servers : List ServerConf) (idx rnum aid i : Nat), i < servers.length →
      ((buildServers db uname pname shardKey servers idx rnum aid)[i]?).map
          Address.replica_number =
        some (rnum +
          ((servers.take i).filter (fun s => s.role == Role.Replica)).length) := by
  intro servers
  induction servers with
  | nil => intro idx rnum aid i hi; cases hi
  | cons s rest ih =>
    intro idx rnum aid i hi
    cases i with
    | zero => simp [buildServers]
    | succ j =>
      have hj : j < rest.length := Nat.lt_of_succ_lt_succ hi
      have hstep :
          (buildServers db uname pname shardKey (s :: rest) idx rnum aid)[j + 1]? =
          (buildServers db uname pname shardKey rest (idx + 1)
            (if s.role == Role.Replica then rnum + 1 else rnum) (aid + 1))[j]? := by
        simp [buildServers]
      rw [hstep]
      cases hsr : s.role == Role.Replica with
      | true =>
        simp only [hsr, if_true]
        rw [ih (idx + 1) (rnum + 1) (aid + 1) j hj]
        simp only [List.take_succ_cons, List.filter_cons, hsr, if_true,
          List.length_cons, Option.some.injEq]
        omega
      | false =>
        simp only [hsr, Bool.false_eq_true, if_false]
        rw [ih (idx + 1) rnum (aid + 1) j hj]
        simp [List.take_succ_cons, List.filter_cons, hsr]

/-! ### Claim C3: replica numbering -/

/-- C3 counterexample: in a shard configured `[Replica, Primary]` the primary
(position 1) is assigned `replica_number = 1`, not `0`; the claim's "the
primary's replica_number is 0 regardless of its position" fails. -/
theorem claim_C3_counterexample :
    ((buildServers "db" "u" "p" 0
        [⟨"r1", 1, Role.Replica⟩, ⟨"p1", 2, Role.Primary⟩] 0 0 0)[1]?).map
        (fun a => (a.role, a.replica_number)) = some (Role.Primary, 1) := by
  decide

/-- C3 (amended): walking the configured server list in order, each address
is assigned the current `replica_number` and the counter is incremented only
on `Replica` entries, so an address's `replica_number` equals the number of
replicas listed *before* it; the primary's `replica_number` is `0` exactly
when no replica precedes it.  In particular `[P, R, R, R]` yields
`[0, 0, 1, 2]`. -/
theorem claim_C3_amended (db uname pname : String) (shardKey aid : Nat)
    (servers : List ServerConf) (i : Nat) (hi : i < servers.length) :
    ((buildServers db uname pname shardKey servers 0 0 aid)[i]?).map
        Address.replica_number =
      some (((servers.take i).filter (fun s => s.role == Role.Replica)).length) ∧
    (buildServers "db" "u" "p" 0
        [⟨"p1", 1, Role.Primary⟩, ⟨"r1", 2, Role.Replica⟩,
         ⟨"r2", 3, Role.Replica⟩, ⟨"r3", 4, Role.Replica⟩] 0 0 0).map
        Address.replica_number = [0, 0, 1, 2] := by
  refine ⟨?_, by decide⟩
  have h := buildServers_replica_number db uname pname shardKey servers 0 0 aid i hi
  simpa using h

/-- Witness for C3 (amended) at a concrete shard configuration. -/
theorem claim_C3_witness :
    ((buildServers "db" "u" "p" 0
        [⟨"r1", 1, Role.Replica⟩, ⟨"p1", 2, Role.Primary⟩] 0 0 5)[1]?).map
        Address.replica_number = some 1 := by
  have h := (claim_C3_amended "db" "u" "p" 0 5
    [⟨"r1", 1, Role.Replica⟩, ⟨"p1", 2, Role.Primary⟩] 1 (by decide)).1
  exact h.trans (by decide)

/-! ### Claim C10: the `default_role` mapping -/

/-- The `default_role` dispatch in `from_config` (`match … .as_str()`):
`"any"`, `"replica"`, `"primary"` map to their roles; any other string hits
`unreachable!`, modelled as `none`. -/
def parseDefaultRole (s : String) : Option (Option Role) :=
  if s = "any" then some none
  else if s = "replica" then some (some Role.Replica)
  else if s = "primary" then some (some Role.Primary)
  else none

/-- C10: the three legal `default_role` strings map to `None`,
`Some(Replica)`, `Some(Primary)` respectively; any other string panics
(`unreachable!`); under the precondition that the configured string is one of
the three, the panic branch is unreachable and the dispatch is total. -/
theorem claim_C10_default_role (s : String)
    (h : s = "any" ∨ s = "replica" ∨ s = "primary") :
    (parseDefaultRole s).isSome ∧
    parseDefaultRole "any" = some none ∧
    parseDefaultRole "replica" = some (some Role.Replica) ∧
    parseDefaultRole "primary" = some (some Role.Primary) ∧
    (∀ t : String, t ≠ "any" → t ≠ "replica" → t ≠ "primary" →
      parseDefaultRole t = none) := by
  refine ⟨?_, by decide, by decide, by decide, ?_⟩
  · rcases h with rfl | rfl | rfl <;> decide
  · intro t h1 h2 h3
    simp [parseDefaultRole, h1, h2, h3]

/-- Witness for C10 at `"replica"` and an illegal string. -/
theorem claim_C10_witness :
    (parseDefaultRole "replica").isSome ∧ parseDefaultRole "nonsense" = none := by
  obtain ⟨h1, _, _, _, h5⟩ := claim_C10_default_role "replica" (Or.inr (Or.inl rfl))
  exact ⟨h1, h5 "nonsense" (by decide) (by decide) (by decide)⟩

/-! ### Candidate ordering in `get` -/

/-- The busy count as read by the sort comparator (in-range addresses agree
with `busy_connection_count`; out-of-range indexing inside the comparator is
ruled out by the well-formedness hypotheses of the theorems using this). -/
def busyD (pool : ConnectionPool) (a : Address) : Nat :=
  (busy_connection_count pool a).getD 0

/-- The comparator `|a, b| busy(b).partial_cmp(busy(a))` of
`candidates.sort_by`: it orders the vector by non-increasing busy count, so
the least-loaded candidate ends up at the tail (popped first).  Rust's
`sort_by` is a stable sort; it is embedded as Mathlib's stable
`insertionSort`. -/
def lessLoadedLast (pool : ConnectionPool) (a b : Address) : Prop :=
  busyD pool b ≤ busyD pool a

instance (pool : ConnectionPool) : DecidableRel (lessLoadedLast pool) := fun a b =>
  inferInstanceAs (Decidable (busyD pool b ≤ busyD pool a))

instance (pool : ConnectionPool) : IsTotal Address (lessLoadedLast pool) :=
  ⟨fun _ _ => Nat.le_total _ _⟩

instance (pool : ConnectionPool) : IsTrans Address (lessLoadedLast pool) :=
  ⟨fun _ _ _ h1 h2 => le_trans h2 h1⟩

/-- The ordering `get` applies to the shuffled candidates: a stable sort into
non-increasing busy order under `LeastOutstandingConnections`, the shuffle
order otherwise. -/
def orderCandidates (pool : ConnectionPool) (cands : List Address) : List Address :=
  if pool.settings.load_balancing_mode =
      LoadBalancingMode.LeastOutstandingConnections then
    cands.insertionSort (lessLoadedLast pool)
  else cands

/-! ### Claim C6: least-outstanding-connections ordering -/

/-- C6: under `LeastOutstandingConnections`, after the shuffle the candidate
list is stable-sorted so that popping from the tail tries addresses with
fewer busy connections first: the sorted list is a permutation of the
shuffled one, its pop (reverse) order is non-decreasing in busy count, ties
keep their shuffle order, and "busy" is
`max 0 (connections - idle_connections)` from the slot-pool state. -/
theorem claim_C6_least_outstanding (pool : ConnectionPool)
    (shuffled : List Address)
    (hmode : pool.settings.load_balancing_mode =
      LoadBalancingMode.LeastOutstandingConnections) :
    (orderCandidates pool shuffled).Perm shuffled ∧
    List.Pairwise (fun x y => busyD pool x ≤ busyD pool y)
      (orderCandidates pool shuffled).reverse ∧
    (∀ a b, busyD pool a = busyD pool b → List.Sublist [a, b] shuffled →
      List.Sublist [a, b] (orderCandidates pool shuffled)) ∧
    (∀ a s, pool_state pool a.shard a.address_index = some s →
      (busyD pool a : Int) =
        max 0 ((s.connections : Int) - (s.idle_connections : Int))) := by
  have hord : orderCandidates pool shuffled =
      shuffled.insertionSort (lessLoadedLast pool) := by
    unfold orderCandidates
    rw [if_pos hmode]
  refine ⟨?_, ?_, ?_, ?_⟩
  · rw [hord]
    exact List.perm_insertionSort _ _
  · rw [hord]
    have hs : List.Sorted (lessLoadedLast pool)
        (shuffled.insertionSort (lessLoadedLast pool)) :=
      List.sorted_insertionSort (lessLoadedLast pool) shuffled
    exact List.pairwise_reverse.mpr hs
  · intro a b heq hsub
    rw [hord]
    exact List.pair_sublist_insertionSort (le_of_eq heq.symm) hsub
  · intro a s h
    unfold busyD
    rw [busy_count_eq_max pool a s h]
    simp only [Option.getD_some]
    rw [Int.toNat_of_nonneg (le_max_left ..)]

/-- Fixture: settings selecting `LeastOutstandingConnections`. -/
def fixSettingsLOC : PoolSettings :=
  { fixSettings with
      load_balancing_mode := LoadBalancingMode.LeastOutstandingConnections }

/-- Fixture: a slot pool with four busy connections. -/
def fixSlotBusy : SlotPool := { connections := 4, idle_connections := 0, checkout := none }

/-- Fixture: a least-outstanding-connections pool where the primary's slot
pool is busier than the replicas'. -/
def fixPool6 : ConnectionPool :=
  { databases := [[fixSlotBusy, fixSlot, fixSlot]],
    addresses := [[fixPrimary, fixReplica, fixReplica2]],
    server_info := "", settings := fixSettingsLOC }

/-- Witness for C6 on a concrete shuffled candidate list. -/
theorem claim_C6_witness :
    (orderCandidates fixPool6 [fixReplica, fixPrimary]).Perm
      [fixReplica, fixPrimary] ∧
    List.Pairwise (fun x y => busyD fixPool6 x ≤ busyD fixPool6 y)
      (orderCandidates fixPool6 [fixReplica, fixPrimary]).reverse :=
  have h := claim_C6_least_outstanding fixPool6 [fixReplica, fixPrimary] rfl
  ⟨h.1, h.2.1⟩

/-! ### Configuration, pool construction and reload -/

/-- A configured user (`config::User`): the fields the pool core consults. -/
structure UserConf where
  username : String
  pool_size : Nat
deriving DecidableEq

/-- One shard's configuration (`config::Shard`). -/
structure ShardConf where
  database : String
  servers : List ServerConf
deriving DecidableEq

/-- One pool's configuration (`config::Pool`); fields not consulted by the
verified paths (pool_mode, timeout overrides, sharding fields, flags) are
omitted.  `shards` is keyed by stringified integers. -/
structure PoolConf where
  users : List UserConf
  shards : List (String × ShardConf)
  default_role : String
  load_balancing_mode : LoadBalancingMode
deriving DecidableEq

/-- The general config section fields consulted by `from_config`. -/
structure GeneralConf where
  healthcheck_delay : Nat
  healthcheck_timeout : Nat
  ban_time : Int
deriving DecidableEq

/-- `PoolIdentifier`: the (database, user) pool key. -/
structure PoolIdentifier where
  db : String
  user : String
deriving DecidableEq

/-- The process-wide registry snapshot pair: the published `POOLS` map and
the `POOLS_HASH` config set. -/
structure Registry where
  pools : List (PoolIdentifier × ConnectionPool)
  pools_hash : List PoolConf
deriving DecidableEq

/-- `ConnectionPool::shards`. -/
def ConnectionPool.shards (pool : ConnectionPool) : Nat :=
  pool.databases.length

/-- `ConnectionPool::servers`. -/
def ConnectionPool.servers (pool : ConnectionPool) (shard : Nat) : Nat :=
  (pool.addresses.getD shard []).length

/-- One digit of a shard-key string. -/
def digitVal (c : Char) : Option Nat :=
  if 48 ≤ c.toNat ∧ c.toNat ≤ 57 then some (c.toNat - 48) else none

/-- `str::parse` of a non-negative integer (`parse::<usize>`, and
`parse::<i64>` restricted to the non-negative keys the pool expects),
modelled on the string's character data: base-10 digits, at least one. -/
def parseKeyAux : List Char → Nat → Option Nat
  | [], acc => some acc
  | c :: cs, acc =>
    match digitVal c with
    | none => none
    | some d => parseKeyAux cs (acc * 10 + d)

/-- `shard_idx.parse::<usize>()`: `none` models the `unwrap` panic. -/
def parseKey (s : String) : Option Nat :=
  match s.data with
  | [] => none
  | cs => parseKeyAux cs 0

/-- The parsed numeric value of a shard-key string (callers ensure the key
parses, so the `getD` default is never consulted). -/
def keyVal (k : String) : Nat :=
  (parseKey k).getD 0

/-- Numeric order on shard-key strings (`sort_by_key(parse)`). -/
def keyLe (x y : String) : Prop :=
  keyVal x ≤ keyVal y

instance : DecidableRel keyLe := fun x y =>
  inferInstanceAs (Decidable (keyVal x ≤ keyVal y))

instance : IsTotal String keyLe := ⟨fun _ _ => Nat.le_total _ _⟩

instance : IsTrans String keyLe := ⟨fun _ _ _ h1 h2 => le_trans h1 h2⟩

/-- `shard_ids.sort_by_key(|k| k.parse::<i64>().unwrap())`: the `unwrap`
panic on an unparsable key is `none`; Rust's stable `sort_by_key` is
embedded as the stable `insertionSort` on the parsed numeric value. -/
def sortedShardIds (shards : List (String × ShardConf)) : Option (List String) :=
  if (shards.map Prod.fst).all (fun k => (parseKey k).isSome) then
    some ((shards.map Prod.fst).insertionSort keyLe)
  else
    none

/-- A freshly built bb8 pool: no connections yet; runtime checkout outcomes
are environment data supplied to `get`'s model, not part of construction. -/
def freshSlot : SlotPool :=
  { connections := 0, idle_connections := 0, checkout := none }

/-- The shard loop of `from_config` (`for shard_idx in &shard_ids`): per
sorted shard key, push one row of bb8 pools, the address row (built by
`buildServers` with `shard := shard_idx.parse::<usize>()`), and one fresh
ban map; `none` marks the parse `unwrap` panic or a missing key. -/
def buildShardsLoop (uname pname : String) (shards : List (String × ShardConf)) :
    List String → Nat →
    Option (List (List SlotPool) × List (List Address) × BanState × Nat)
  | [], aid => some ([], [], [], aid)
  | k :: rest, aid =>
    match (shards.find? (fun p => p.1 == k)).map Prod.snd, parseKey k with
    | some sc, some kv =>
      match buildShardsLoop uname pname shards rest (aid + sc.servers.length) with
      | none => none
      | some (dbs, rows, bls, aidEnd) =>
        some ((sc.servers.map (fun _ => freshSlot)) :: dbs,
          buildServers sc.database uname pname kv sc.servers 0 0 aid :: rows,
          ([] : BanMap) :: bls, aidEnd)
    | _, _ => none

/-- Building one fresh `ConnectionPool` for a (pool, user) pair in
`from_config`: sort the shard keys numerically, run the shard loop, and
assemble the settings (`shards` is the number of shard keys; an illegal
`default_role` hits `unreachable!`).  Returns the pool, its fresh ban list
and the advanced global address id. -/
def buildPool (conf : PoolConf) (user : UserConf) (pname : String)
    (general : GeneralConf) (aid : Nat) :
    Option (ConnectionPool × BanState × Nat) :=
  match sortedShardIds conf.shards with
  | none => none
  | some ids =>
    match buildShardsLoop user.username pname conf.shards ids aid with
    | none => none
    | some (dbs, rows, bls, aidEnd) =>
      match parseDefaultRole conf.default_role with
      | none => none
      | some dr =>
        some ({ databases := dbs, addresses := rows, server_info := "",
                settings := { load_balancing_mode := conf.load_balancing_mode,
                              shards := ids.length,
                              default_role := dr,
                              healthcheck_timeout := general.healthcheck_timeout,
                              healthcheck_delay := general.healthcheck_delay,
                              ban_time := general.ban_time } },
          bls, aidEnd)

/-- `ConnectionPool::validate`: warm-connect every endpoint in shard-major
order, skipping failures; `AllServersDown` iff no endpoint yields a
server-info payload; otherwise the first payload is stored. -/
def validate (pool : ConnectionPool) (warm : Nat → Nat → Option String) :
    Except Error ConnectionPool :=
  let infos := (List.range pool.shards).flatMap (fun s =>
    (List.range (pool.servers s)).filterMap (fun i => warm s i))
  match infos with
  | [] => Except.error Error.AllServersDown
  | info :: _ => Except.ok { pool with server_info := info }

/-- `get_pool` against a registry snapshot. -/
def getPool (reg : Registry) (db uname : String) : Option ConnectionPool :=
  (reg.pools.find? (fun p => p.1 == PoolIdentifier.mk db uname)).map Prod.snd

/-- `HashMap::insert` into the new pools map (replaces an existing key). -/
def poolInsert (m : List (PoolIdentifier × ConnectionPool))
    (k : PoolIdentifier) (v : ConnectionPool) :
    List (PoolIdentifier × ConnectionPool) :=
  (k, v) :: m.filter (fun p => ¬ p.1 == k)

/-- `HashSet::insert` on the config set, returning the set together with the
"was newly inserted" flag (`changed`). -/
def hashInsert (s : List PoolConf) (c : PoolConf) : List PoolConf × Bool :=
  if c ∈ s then (s, false) else (c :: s, true)

/-- The reload environment: warm-up checkout outcomes per
(pool name, username, shard index, server index). -/
structure ReloadEnv where
  warm : String → String → Nat → Nat → Option String

/-- The user loop of `from_config`: reuse the previous pool when the config
is unchanged and present, otherwise build and validate a fresh pool;
a validation error aborts the whole walk. -/
def processUsers (env : ReloadEnv) (old : Registry) (general : GeneralConf)
    (pname : String) (conf : PoolConf) (changed : Bool) :
    List UserConf → List (PoolIdentifier × ConnectionPool) → Nat →
    Option (Except Error (List (PoolIdentifier × ConnectionPool) × Nat))
  | [], acc, aid => some (Except.ok (acc, aid))
  | u :: rest, acc, aid =>
    match changed, getPool old pname u.username with
    | false, some p =>
      processUsers env old general pname conf changed rest
        (poolInsert acc (PoolIdentifier.mk pname u.username) p) aid
    | _, _ =>
      match buildPool conf u pname general aid with
      | none => none
      | some (pool, _bls, aidNext) =>
        match validate pool (env.warm pname u.username) with
        | Except.error e => some (Except.error e)
        | Except.ok poolV =>
          processUsers env old general pname conf changed rest
            (poolInsert acc (PoolIdentifier.mk pname u.username) poolV) aidNext

/-- The pool loop of `from_config`, threading the config set and the new
pools map. -/
def processPools (env : ReloadEnv) (old : Registry) (general : GeneralConf) :
    List (String × PoolConf) → List PoolConf →
    List (PoolIdentifier × ConnectionPool) → Nat →
    Option (Except Error
      (List (PoolIdentifier × ConnectionPool) × List PoolConf))
  | [], hash, acc, _ => some (Except.ok (acc, hash))
  | (pname, conf) :: rest, hash, acc, aid =>
    match processUsers env old general pname conf (hashInsert hash conf).2
        conf.users acc aid with
    | none => none
    | some (Except.error e) => some (Except.error e)
    | some (Except.ok (accNext, aidNext)) =>
      processPools env old general rest (hashInsert hash conf).1 accNext aidNext

/-- `ConnectionPool::from_config`: walk the configured pools starting from a
clone of the published config set; on any error return it *before* the
`POOLS.store`/`POOLS_HASH.store` pair runs (previous snapshots stay live);
on success publish the freshly computed pair.  `none` marks a panic. -/
def from_config (env : ReloadEnv) (general : GeneralConf)
    (cfg : List (String × PoolConf)) (reg : Registry) :
    Option (Except Error Unit × Registry) :=
  match processPools env reg general cfg reg.pools_hash [] 0 with
  | none => none
  | some (Except.error e) => some (Except.error e, reg)
  | some (Except.ok (np, ph)) =>
    some (Except.ok (), { pools := np, pools_hash := ph })

/-! ### Claim C7: validation failures abort the reload without publishing -/

/-- C7: `validate` fails exactly when every endpoint's warm-up checkout
fails (individual failures are skipped), and the only validation error is
`AllServersDown`; `from_config` returning an error leaves the published
registry — both the `POOLS` and `POOLS_HASH` snapshots — unchanged, and only
on success are both atomically replaced by the freshly computed pair. -/
theorem claim_C7_reload_abort (pool : ConnectionPool)
    (warm : Nat → Nat → Option String) (env : ReloadEnv)
    (general : GeneralConf) (cfg : List (String × PoolConf)) (reg : Registry) :
    (validate pool warm = Except.error Error.AllServersDown ↔
      ∀ s < pool.shards, ∀ i < pool.servers s, warm s i = none) ∧
    (∀ e, validate pool warm = Except.error e → e = Error.AllServersDown) ∧
    (∀ e reg', from_config env general cfg reg = some (Except.error e, reg') →
      reg' = reg) ∧
    (∀ reg', from_config env general cfg reg = some (Except.ok (), reg') →
      ∃ np ph, processPools env reg general cfg reg.pools_hash [] 0 =
        some (Except.ok (np, ph)) ∧ reg' = { pools := np, pools_hash := ph }) := by
  have hempty : ((List.range pool.shards).flatMap (fun s =>
        (List.range (pool.servers s)).filterMap (fun i => warm s i)) = []) ↔
      ∀ s < pool.shards, ∀ i < pool.servers s, warm s i = none := by
    rw [List.flatMap_eq_nil_iff]
    constructor
    · intro h s hs i hi
      have := (List.filterMap_eq_nil_iff.mp (h s (List.mem_range.mpr hs))) i
        (List.mem_range.mpr hi)
      exact this
    · intro h s hs
      rw [List.filterMap_eq_nil_iff]
      intro i hi
      exact h s (List.mem_range.mp hs) i (List.mem_range.mp hi)
  refine ⟨?_, ?_, ?_, ?_⟩
  · unfold validate
    constructor
    · intro h
      rw [← hempty]
      by_contra hne
      obtain ⟨info, rest, heq⟩ := List.exists_cons_of_ne_nil hne
      rw [heq] at h
      exact absurd h (by simp)
    · intro h
      have h0 := hempty.mpr h
      rw [h0]
  · intro e h
    unfold validate at h
    rcases hcase : (List.range pool.shards).flatMap (fun s =>
        (List.range (pool.servers s)).filterMap (fun i => warm s i)) with _ | ⟨info, rest⟩
    · rw [hcase] at h
      exact (Except.error.inj h).symm
    · rw [hcase] at h
      exact absurd h (by simp)
  · intro e reg' h
    unfold from_config at h
    rcases hp : processPools env reg general cfg reg.pools_hash [] 0 with _ | r
    · rw [hp] at h; exact absurd h (by simp)
    · rw [hp] at h
      cases r with
      | error e2 =>
        simp only at h
        exact (congrArg Prod.snd (Option.some.inj h)).symm
      | ok pr =>
        exact absurd h (by simp)
  · intro reg' h
    unfold from_config at h
    rcases hp : processPools env reg general cfg reg.pools_hash [] 0 with _ | r
    · rw [hp] at h; exact absurd h (by simp)
    · rw [hp] at h
      cases r with
      | error e2 => exact absurd h (by simp)
      | ok pr =>
        obtain ⟨np, ph⟩ := pr
        have h2 : (some (Except.ok (), ({ pools := np, pools_hash := ph } : Registry)) :
            Option (Except Error Unit × Registry)) = some (Except.ok (), reg') := h
        exact ⟨np, ph, rfl, (congrArg Prod.snd (Option.some.inj h2)).symm⟩

/-- Fixture: general configuration values. -/
def fixGeneral : GeneralConf :=
  { healthcheck_delay := 30000, healthcheck_timeout := 1000, ban_time := 60 }

/-- Witness for C7: with every warm-up checkout failing, validation yields
`AllServersDown`. -/
theorem claim_C7_witness :
    validate fixPool (fun _ _ => none) = Except.error Error.AllServersDown := by
  have h := (claim_C7_reload_abort fixPool (fun _ _ => none)
    (ReloadEnv.mk (fun _ _ _ _ => none)) fixGeneral [] (Registry.mk [] [])).1
  exact h.mpr (fun s _ i _ => rfl)

/-! ### Facts about the shard-construction loops -/

theorem buildServers_shard (db uname pname : String) (shardKey : Nat) :
    ∀ (servers : List ServerConf) (idx rnum aid : Nat) (a : Address),
      a ∈ buildServers db uname pname shardKey servers idx rnum aid →
      a.shard = shardKey := by
  intro servers
  induction servers with
  | nil => intro idx rnum aid a ha; cases ha
  | cons s rest ih =>
    intro idx rnum aid a ha
    rcases List.mem_cons.mp ha with rfl | h
    · rfl
    · exact ih _ _ _ a h

theorem buildServers_index_bounds (db uname pname : String) (shardKey : Nat) :
    ∀ (servers : List ServerConf) (idx rnum aid : Nat) (a : Address),
      a ∈ buildServers db uname pname shardKey servers idx rnum aid →
      idx ≤ a.address_index ∧ a.address_index < idx + servers.length := by
  intro servers
  induction servers with
  | nil => intro idx rnum aid a ha; cases ha
  | cons s rest ih =>
    intro idx rnum aid a ha
    simp only [List.length_cons]
    rcases List.mem_cons.mp ha with rfl | h
    · show idx ≤ idx ∧ idx < idx + (rest.length + 1)
      omega
    · have := ih (idx + 1) (if s.role == Role.Replica then rnum + 1 else rnum)
        (aid + 1) a h
      omega

theorem buildServers_length (db uname pname : String) (shardKey : Nat) :
    ∀ (servers : List ServerConf) (idx rnum aid : Nat),
      (buildServers db uname pname shardKey servers idx rnum aid).length =
        servers.length := by
  intro servers
  induction servers with
  | nil => intro idx rnum aid; rfl
  | cons s rest ih =>
    intro idx rnum aid
    simp only [buildServers, List.length_cons, ih]

/-- Row-by-row description of the shard loop's output. -/
theorem buildShardsLoop_spec (uname pname : String)
    (shards : List (String × ShardConf)) :
    ∀ (ids : List String) (aid : Nat) (dbs : List (List SlotPool))
      (rows : List (List Address)) (bls : BanState) (aidE : Nat),
      buildShardsLoop uname pname shards ids aid = some (dbs, rows, bls, aidE) →
      dbs.length = ids.length ∧ rows.length = ids.length ∧
      bls.length = ids.length ∧
      (∀ (i : Nat) (k : String), ids[i]? = some k →
        ∃ kv sc aidS,
          parseKey k = some kv ∧
          (shards.find? (fun p => p.1 == k)).map Prod.snd = some sc ∧
          rows[i]? =
            some (buildServers sc.database uname pname kv sc.servers 0 0 aidS) ∧
          dbs[i]? = some (sc.servers.map (fun _ => freshSlot)) ∧
          bls[i]? = some ([] : BanMap)) := by
  intro ids
  induction ids with
  | nil =>
    intro aid dbs rows bls aidE h
    simp only [buildShardsLoop, Option.some.injEq, Prod.mk.injEq] at h
    obtain ⟨rfl, rfl, rfl, rfl⟩ := h
    refine ⟨rfl, rfl, rfl, ?_⟩
    intro i k hik
    exact absurd hik (by simp)
  | cons k0 rest ih =>
    intro aid dbs rows bls aidE h
    simp only [buildShardsLoop] at h
    split at h
    · rename_i sc kv hf hv
      split at h
      · exact absurd h (by simp)
      · rename_i res dbs2 rows2 bls2 aidE2 hrec
        simp only [Option.some.injEq, Prod.mk.injEq] at h
        obtain ⟨rfl, rfl, rfl, rfl⟩ := h
        obtain ⟨hl1, hl2, hl3, hspec⟩ :=
          ih (aid + sc.servers.length) dbs2 rows2 bls2 aidE2 hrec
        refine ⟨by simp [hl1], by simp [hl2], by simp [hl3], ?_⟩
        intro i k hik
        cases i with
        | zero =>
          simp only [List.getElem?_cons_zero, Option.some.injEq] at hik
          subst hik
          exact ⟨kv, sc, aid, hv, hf, by simp, by simp, by simp⟩
        | succ j =>
          simp only [List.getElem?_cons_succ] at hik ⊢
          exact hspec j k hik
    · exact absurd h (by simp)

/-- Pigeonhole: a duplicate-free list of `n` naturals all below `n` is a
permutation of `range n`. -/
theorem perm_range_of_nodup_lt {l : List Nat} {n : Nat} (hlen : l.length = n)
    (hnd : l.Nodup) (hlt : ∀ x ∈ l, x < n) : List.Perm l (List.range n) := by
  apply List.perm_of_nodup_nodup_toFinset_eq hnd (List.nodup_range n)
  have hsub : l.toFinset ⊆ Finset.range n := by
    intro x hx
    rw [Finset.mem_range]
    exact hlt x (List.mem_toFinset.mp hx)
  have hcard : l.toFinset.card = n := by
    rw [List.toFinset_card_of_nodup hnd, hlen]
  have heq : l.toFinset = Finset.range n :=
    Finset.eq_of_subset_of_card_le hsub (by rw [hcard, Finset.card_range])
  rw [heq]
  ext x
  simp [List.mem_toFinset, List.mem_range, Finset.mem_range]

theorem is_banned_isSome (st : BanState) (a : Address) (h : a.shard < st.length) :
    (is_banned st a).isSome := by
  unfold is_banned
  rw [List.getElem?_eq_getElem h]
  rfl

theorem ban_isSome (st : BanState) (now : Int) (a : Address)
    (h : a.shard < st.length) : (ban st now a).isSome := by
  unfold ban
  split
  · rfl
  · rw [List.getElem?_eq_getElem h]
    rfl

theorem try_unban_isSome (pool : ConnectionPool) (st : BanState) (now : Int)
    (a : Address) (h1 : a.shard < pool.addresses.length)
    (h2 : a.shard < st.length) : (try_unban pool st now a).isSome := by
  unfold try_unban
  split
  · rfl
  · rw [List.getElem?_eq_getElem h1, List.getElem?_eq_getElem h2]
    split
    · split
      · rfl
      · split
        · rfl
        · split <;> rfl
    · rename_i hcontra
      exact ((hcontra _ _ rfl rfl).elim)

/-! ### Claim C9: shard fields index the per-shard vectors -/

/-- C9: in a pool built by `from_config`, an address's `shard` field is the
parsed integer value of its configured shard key string (not the row's
position in the sorted order), and `ban`, `is_banned`, `try_unban` and the
slot-pool lookup performed by `get` index the per-shard vectors by that
field.  When the sorted keys parse to exactly `0..shards-1`, every such
index is in bounds for every address of the pool; otherwise (keys distinct
and every shard nonempty) some address's `shard` reaches past the vectors
and the lookup panics. -/
theorem claim_C9_shard_key_indexing (conf : PoolConf) (user : UserConf)
    (pname : String) (general : GeneralConf) (aid0 : Nat)
    (pool : ConnectionPool) (bls : BanState) (aidE : Nat) (ids : List String)
    (hids : sortedShardIds conf.shards = some ids)
    (hbuild : buildPool conf user pname general aid0 = some (pool, bls, aidE)) :
    bls.length = pool.addresses.length ∧
    (∀ (i : Nat) (k : String) (row : List Address),
      ids[i]? = some k → pool.addresses[i]? = some row →
      ∀ a ∈ row, a.shard = keyVal k) ∧
    (ids.map keyVal = List.range ids.length →
      ∀ row ∈ pool.addresses, ∀ a ∈ row,
        a.shard < pool.addresses.length ∧
        (∀ st : BanState, st.length = pool.addresses.length →
          (is_banned st a).isSome ∧
          (∀ now : Int, (ban st now a).isSome) ∧
          (∀ now : Int, (try_unban pool st now a).isSome)) ∧
        (pool_state pool a.shard a.address_index).isSome) ∧
    ((conf.shards.map (fun p => keyVal p.1)).Nodup →
      ids.map keyVal ≠ List.range ids.length →
      (∀ p ∈ conf.shards, p.2.servers ≠ []) →
      ∃ row ∈ pool.addresses, ∃ a ∈ row,
        pool.addresses.length ≤ a.shard ∧
        ∀ st : BanState, st.length = pool.addresses.length →
          is_banned st a = none) := by
  unfold buildPool at hbuild
  split at hbuild
  · exact absurd hbuild (by simp)
  rename_i ids2 hids2
  rw [hids] at hids2
  obtain rfl : ids = ids2 := Option.some.inj hids2
  split at hbuild
  · exact absurd hbuild (by simp)
  rename_i dbs rows blsL aidX hloop
  split at hbuild
  · exact absurd hbuild (by simp)
  rename_i dr hdr
  simp only [Option.some.injEq, Prod.mk.injEq] at hbuild
  obtain ⟨rfl, rfl, rfl⟩ := hbuild
  obtain ⟨hLdbs, hLrows, hLbls, hspec⟩ :=
    buildShardsLoop_spec user.username pname conf.shards ids aid0
      dbs rows blsL aidX hloop
  refine ⟨?_, ?_, ?_, ?_⟩
  · show blsL.length = rows.length
    rw [hLbls, hLrows]
  · intro i k row hik hrow a ha
    obtain ⟨kv, sc, aidS, hv, hf, hrowi, hdbi, hbli⟩ := hspec i k hik
    have hrow' : rows[i]? = some row := hrow
    have hroweq : row =
        buildServers sc.database user.username pname kv sc.servers 0 0 aidS :=
      Option.some.inj (hrow'.symm.trans hrowi)
    have h1 : a.shard = kv :=
      buildServers_shard _ _ _ _ _ _ _ _ a (hroweq ▸ ha)
    rw [h1]
    simp [keyVal, hv]
  · intro hcontig row hrowmem a ha
    have hrowmem' : row ∈ rows := hrowmem
    obtain ⟨i, hi, hieq⟩ := List.getElem_of_mem hrowmem'
    have hbound2 : i < ids.length := hLrows ▸ hi
    have hik : ids[i]? = some (ids[i]) :=
      List.getElem?_eq_getElem hbound2
    obtain ⟨kv, sc, aidS, hv, hf, hrowi, hdbi, hbli⟩ :=
      hspec i (ids[i]) hik
    have hrow' : rows[i]? = some row := by
      rw [List.getElem?_eq_getElem hi, hieq]
    have hroweq : row =
        buildServers sc.database user.username pname kv sc.servers 0 0 aidS :=
      Option.some.inj (hrow'.symm.trans hrowi)
    have hashard : a.shard = kv :=
      buildServers_shard _ _ _ _ _ _ _ _ a (hroweq ▸ ha)
    have h1m : (ids.map keyVal)[i]? = some (keyVal (ids[i])) := by
      rw [List.getElem?_map, List.getElem?_eq_getElem hbound2]
      rfl
    have h2m : (List.range ids.length)[i]? = some i := by
      rw [List.getElem?_eq_getElem (by simpa using hbound2)]
      simp
    rw [hcontig] at h1m
    have hkvi : keyVal (ids[i]) = i := Option.some.inj (h1m.symm.trans h2m)
    have hkvv : keyVal (ids[i]) = kv := by simp [keyVal, hv]
    have hkv : kv = i := hkvv ▸ hkvi
    have hashi : a.shard = i := by rw [hashard, hkv]
    have hashlt : a.shard < rows.length := by rw [hashi]; exact hi
    have hidx := buildServers_index_bounds _ _ _ _ _ _ _ _ a (hroweq ▸ ha)
    refine ⟨hashlt, ?_, ?_⟩
    · intro st hst
      have hstlt : a.shard < st.length := by
        rw [hst]; exact hashlt
      exact ⟨is_banned_isSome st a hstlt,
        fun now => ban_isSome st now a hstlt,
        fun now => try_unban_isSome _ st now a hashlt hstlt⟩
    · have hlenmap : a.address_index < (sc.servers.map (fun _ => freshSlot)).length := by
        rw [List.length_map]
        omega
      show ((dbs[a.shard]?).bind (fun r => r[a.address_index]?)).isSome
      rw [hashi, hdbi]
      show ((sc.servers.map (fun _ => freshSlot))[a.address_index]?).isSome
      rw [List.getElem?_eq_getElem hlenmap]
      rfl
  · intro hnd hne hserv
    unfold sortedShardIds at hids
    split at hids
    · rename_i hall
      have hids' : ids = (conf.shards.map Prod.fst).insertionSort keyLe :=
        (Option.some.inj hids).symm
      have hperm : List.Perm ids (conf.shards.map Prod.fst) := by
        rw [hids']
        exact List.perm_insertionSort _ _
      have hvnodup : (ids.map keyVal).Nodup := by
        have hp2 : List.Perm (ids.map keyVal)
            ((conf.shards.map Prod.fst).map keyVal) := hperm.map keyVal
        have h2 : (conf.shards.map Prod.fst).map keyVal =
            conf.shards.map (fun p => keyVal p.1) := by
          rw [List.map_map]
          rfl
        exact hp2.nodup_iff.mpr (h2 ▸ hnd)
      have hsorted : List.Sorted (· ≤ ·) (ids.map keyVal) := by
        have hs : List.Sorted keyLe ids := by
          rw [hids']
          exact List.sorted_insertionSort _ _
        exact List.Pairwise.map keyVal (fun a b h => h) hs
      by_cases hallless : ∀ v ∈ ids.map keyVal, v < ids.length
      · exfalso
        have hperm2 := perm_range_of_nodup_lt (n := ids.length)
          (by simp) hvnodup hallless
        exact hne (List.eq_of_perm_of_sorted hperm2 hsorted
          (List.sorted_le_range ids.length))
      · push_neg at hallless
        obtain ⟨v, hvmem, hvge⟩ := hallless
        obtain ⟨k, hkmem, hkeq⟩ := List.mem_map.mp hvmem
        obtain ⟨i, hilen, hieq⟩ := List.getElem_of_mem hkmem
        have hik : ids[i]? = some k := by
          rw [List.getElem?_eq_getElem hilen, hieq]
        obtain ⟨kv, sc, aidS, hv, hf, hrowi, hdbi, hbli⟩ := hspec i k hik
        have hscmem : ∃ p ∈ conf.shards, p.2 = sc := by
          rcases hfind : conf.shards.find? (fun p => p.1 == k) with _ | p
          · rw [hfind] at hf
            exact absurd hf (by simp)
          · rw [hfind] at hf
            exact ⟨p, List.mem_of_find?_eq_some hfind, Option.some.inj hf⟩
        obtain ⟨p, hpmem, hpsc⟩ := hscmem
        have hservne : sc.servers ≠ [] := by
          rw [← hpsc]
          exact hserv p hpmem
        have hrowne :
            buildServers sc.database user.username pname kv sc.servers 0 0 aidS ≠ [] := by
          intro hnil
          have hbl := buildServers_length sc.database user.username pname kv
            sc.servers 0 0 aidS
          rw [hnil] at hbl
          exact hservne (List.eq_nil_of_length_eq_zero hbl.symm)
        obtain ⟨a, hamem⟩ := List.exists_mem_of_ne_nil _ hrowne
        have h1 : a.shard = kv := buildServers_shard _ _ _ _ _ _ _ _ a hamem
        have h2 : keyVal k = kv := by simp [keyVal, hv]
        have hkvge : rows.length ≤ kv := by
          rw [hLrows]
          omega
        refine ⟨_, mem_of_getElemOpt hrowi, a, hamem, ?_, ?_⟩
        · show rows.length ≤ a.shard
          rw [h1]
          exact hkvge
        · intro st hst
          have hstle : st.length ≤ a.shard := by
            have : st.length = rows.length := hst
            rw [this, h1]
            exact hkvge
          unfold is_banned
          rw [List.getElem?_eq_none hstle]
          rfl
    · exact absurd hids (by simp)

/-- Fixture: a one-shard configuration under the key `"0"`. -/
def fixShardConf : ShardConf :=
  { database := "db",
    servers := [⟨"hA", 5432, Role.Primary⟩, ⟨"hB", 5433, Role.Replica⟩] }

/-- Fixture: a pool configuration with a single user and shard. -/
def fixPoolConf : PoolConf :=
  { users := [⟨"user", 10⟩], shards := [("0", fixShardConf)],
    default_role := "any", load_balancing_mode := LoadBalancingMode.Random }

/-- Fixture: the address row `from_config` builds for `fixShardConf`. -/
def fixRow9 : List Address :=
  buildServers "db" "user" "pl" 0 fixShardConf.servers 0 0 0

/-- Fixture: the pool `buildPool` produces from `fixPoolConf`. -/
def fixBuiltPool : ConnectionPool :=
  { databases := [[freshSlot, freshSlot]], addresses := [fixRow9],
    server_info := "",
    settings := { load_balancing_mode := LoadBalancingMode.Random, shards := 1,
                  default_role := none, healthcheck_timeout := 1000,
                  healthcheck_delay := 30000, ban_time := 60 } }

/-- Fixture: the first address `from_config` builds for `fixShardConf`. -/
def fixAddrA9 : Address :=
  { id := 0, database := "db", host := "hA", port := 5432, role := Role.Primary,
    address_index := 0, replica_number := 0, shard := 0,
    username := "user", pool_name := "pl" }

/-- Witness for C9: a concrete built address carries the parsed key. -/
theorem claim_C9_witness : fixAddrA9.shard = keyVal "0" := by
  have h := claim_C9_shard_key_indexing fixPoolConf (UserConf.mk "user" 10) "pl"
    fixGeneral 0 fixBuiltPool [[]] 2 ["0"] (by decide) (by decide)
  exact h.2.1 0 "0" fixRow9 rfl rfl fixAddrA9 (by decide)

/-! ### The acquisition loop (`ConnectionPool::get`) -/

/-- Modelled from the spec: the candidate filter compares `address.role`
(a `Role`) with the `Option<Role>` argument through a `PartialEq` impl that
lives in the config module, outside this file's source; per §4.4 a `None`
role means "any" and a concrete role matches by equality. -/
def roleMatches (r : Role) (o : Option Role) : Bool :=
  match o with
  | none => true
  | some r2 => r == r2

/-- The checkout and health-check part of one trial-loop iteration
(`force_healthcheck` is set when a lazy unban just succeeded).  A checkout
error or failed health check bans the address (stats emissions are
fire-and-forget and not modelled) and skips to the next candidate. -/
def stepChecked (pool : ConnectionPool) (now : Int) (a : Address)
    (st : BanState) (force_healthcheck : Bool) :
    Option (Option (Server × Address) × BanState) :=
  match pool_state pool a.shard a.address_index with
  | none => none
  | some sp =>
    match sp.checkout with
    | none => (ban st now a).map (fun st2 => ((none : Option (Server × Address)), st2))
    | some server =>
      let require_healthcheck := force_healthcheck ||
        decide (server.last_activity_elapsed_ms > pool.settings.healthcheck_delay)
      if require_healthcheck then
        if server.health_check_ok then some (some (server, a), st)
        else (ban st now a).map (fun st2 => ((none : Option (Server × Address)), st2))
      else
        some (some (server, a), st)

/-- One iteration of `get`'s trial loop for the popped candidate `a`:
`none` marks a panic, `some (some lease, st')` a successful return, and
`some (none, st')` a `continue` with the updated ban state. -/
def step (pool : ConnectionPool) (now : Int) (a : Address) (st : BanState) :
    Option (Option (Server × Address) × BanState) :=
  match is_banned st a with
  | none => none
  | some banned =>
    if banned then
      match try_unban pool st now a with
      | none => none
      | some (true, st1) => stepChecked pool now a st1 true
      | some (false, st1) => some (none, st1)
    else
      stepChecked pool now a st false

/-- The `while !candidates.is_empty()` trial loop, with the candidates given
in pop order (`Vec::pop` takes the tail, so the loop consumes the reverse of
the ordered vector); an exhausted loop returns `AllServersDown`. -/
def getLoop (pool : ConnectionPool) (now : Int) :
    List Address → BanState → Option (Except Error (Server × Address) × BanState)
  | [], st => some (Except.error Error.AllServersDown, st)
  | a :: rest, st =>
    match step pool now a st with
    | none => none
    | some (some sa, st1) => some (Except.ok sa, st1)
    | some (none, st1) => getLoop pool now rest st1

/-- The candidate set of `get`: `addresses[shard]` filtered by role
(`none` marks the panic on an out-of-range shard argument). -/
def getCandidates (pool : ConnectionPool) (shard : Nat) (role : Option Role) :
    Option (List Address) :=
  (pool.addresses[shard]?).map
    (fun addrs => addrs.filter (fun a => roleMatches a.role role))

/-- `Vec::pop` consumes the vector from the tail. -/
def popOrder (l : List Address) : List Address := l.reverse

/-- The environment of one `get` call: the shuffle drawn from `thread_rng`
and the wall-clock time used for ban timestamps. -/
structure GetEnv where
  shuffle : List Address → List Address
  now : Int

/-- `ConnectionPool::get`: filter `addresses[shard]` by role, shuffle,
sort under `LeastOutstandingConnections`, then run the trial loop. -/
def get (pool : ConnectionPool) (env : GetEnv) (shard : Nat)
    (role : Option Role) (st : BanState) :
    Option (Except Error (Server × Address) × BanState) :=
  match getCandidates pool shard role with
  | none => none
  | some cands =>
    getLoop pool env.now (popOrder (orderCandidates pool (env.shuffle cands))) st

/-- Every candidate tried in order is skipped (banned and not unbanned,
checkout failure, or failed health check), threading the ban-state updates:
the trial loop exhausts without yielding a session. -/
def exhausted (pool : ConnectionPool) (now : Int) :
    List Address → BanState → Prop
  | [], _ => True
  | a :: rest, st =>
    ∃ st', step pool now a st = some (none, st') ∧ exhausted pool now rest st'

/-- In-bounds conditions for one address against the pool's vectors. -/
def AddrOk (pool : ConnectionPool) (a : Address) : Prop :=
  a.shard < pool.addresses.length ∧ a.shard < pool.databases.length ∧
  a.address_index < (pool.databases.getD a.shard []).length

instance (pool : ConnectionPool) (a : Address) : Decidable (AddrOk pool a) :=
  inferInstanceAs (Decidable (_ ∧ _ ∧ _))

/-- One checkout-phase iteration neither panics nor changes the ban-list
shape when the candidate is in bounds. -/
theorem stepChecked_spec (pool : ConnectionPool) (now : Int) (a : Address)
    (st : BanState) (force : Bool) (hok : AddrOk pool a)
    (hst : st.length = pool.addresses.length) :
    ∃ r st', stepChecked pool now a st force = some (r, st') ∧
      st'.length = st.length := by
  obtain ⟨h1, h2, h3⟩ := hok
  obtain ⟨row, hrow⟩ : ∃ row, pool.databases[a.shard]? = some row := by
    rw [List.getElem?_eq_getElem h2]
    exact ⟨_, rfl⟩
  have hgd : pool.databases.getD a.shard [] = row := by
    rw [List.getD_eq_getElem?_getD, hrow]
    rfl
  have hrl : a.address_index < row.length := hgd ▸ h3
  obtain ⟨sp, hsp⟩ : ∃ sp, row[a.address_index]? = some sp := by
    rw [List.getElem?_eq_getElem hrl]
    exact ⟨_, rfl⟩
  have hps : pool_state pool a.shard a.address_index = some sp := by
    unfold pool_state
    rw [hrow]
    exact hsp
  have hstlt : a.shard < st.length := by rw [hst]; exact h1
  obtain ⟨st2, hb⟩ := Option.isSome_iff_exists.mp (ban_isSome st now a hstlt)
  have hlb : st2.length = st.length := length_of_ban hb
  rcases hco : sp.checkout with _ | server
  · refine ⟨none, st2, ?_, hlb⟩
    simp [stepChecked, hps, hco, hb]
  · cases hreq : (force ||
        decide (server.last_activity_elapsed_ms > pool.settings.healthcheck_delay)) with
    | false =>
      refine ⟨some (server, a), st, ?_, rfl⟩
      simp [stepChecked, hps, hco, hreq]
    | true =>
      cases hhc : server.health_check_ok with
      | true =>
        refine ⟨some (server, a), st, ?_, rfl⟩
        simp [stepChecked, hps, hco, hreq, hhc]
      | false =>
        refine ⟨none, st2, ?_, hlb⟩
        simp [stepChecked, hps, hco, hreq, hhc, hb]

/-- One full trial-loop iteration neither panics nor changes the ban-list
shape when the candidate is in bounds. -/
theorem step_spec (pool : ConnectionPool) (now : Int) (a : Address)
    (st : BanState) (hok : AddrOk pool a)
    (hst : st.length = pool.addresses.length) :
    ∃ r st', step pool now a st = some (r, st') ∧ st'.length = st.length := by
  have hstlt : a.shard < st.length := by rw [hst]; exact hok.1
  obtain ⟨m, hm⟩ : ∃ m, st[a.shard]? = some m := by
    rw [List.getElem?_eq_getElem hstlt]
    exact ⟨_, rfl⟩
  have hib : is_banned st a = some ((banLookup m a).isSome) := by
    unfold is_banned
    rw [hm]
    rfl
  cases hbn : (banLookup m a).isSome with
  | false =>
    obtain ⟨r, st', hsc, hl⟩ := stepChecked_spec pool now a st false hok hst
    refine ⟨r, st', ?_, hl⟩
    simp only [step, hib, hbn, Bool.false_eq_true, if_false]
    exact hsc
  | true =>
    obtain ⟨tb, st1⟩ := Option.isSome_iff_exists.mp
      (try_unban_isSome pool st now a (hst ▸ hstlt) hstlt)
    obtain ⟨b1, stb⟩ := tb
    have hlen1 : stb.length = st.length := length_of_try_unban st1
    cases b1 with
    | false =>
      refine ⟨none, stb, ?_, hlen1⟩
      simp only [step, hib, hbn, if_true, st1]
    | true =>
      obtain ⟨r, st', hsc, hl⟩ := stepChecked_spec pool now a stb true hok
        (hlen1.trans hst)
      refine ⟨r, st', ?_, hl.trans hlen1⟩
      simp only [step, hib, hbn, if_true, st1]
      exact hsc

/-- The trial loop is total over in-bounds candidates, returns only a lease
or `AllServersDown`, and errs exactly when it exhausts the candidates. -/
theorem getLoop_spec (pool : ConnectionPool) (now : Int) :
    ∀ (l : List Address) (st : BanState),
      (∀ a ∈ l, AddrOk pool a) → st.length = pool.addresses.length →
      ∃ r st', getLoop pool now l st = some (r, st') ∧
        ((∃ sa, r = Except.ok sa) ∨ r = Except.error Error.AllServersDown) ∧
        (r = Except.error Error.AllServersDown ↔ exhausted pool now l st) := by
  intro l
  induction l with
  | nil =>
    intro st hok hst
    exact ⟨Except.error Error.AllServersDown, st, rfl, Or.inr rfl,
      by simp [exhausted]⟩
  | cons a rest ih =>
    intro st hok hst
    obtain ⟨r0, st1, hstep, hlen⟩ :=
      step_spec pool now a st (hok a (by simp)) hst
    cases r0 with
    | some sa =>
      refine ⟨Except.ok sa, st1, by simp [getLoop, hstep], Or.inl ⟨sa, rfl⟩, ?_⟩
      constructor
      · intro h
        exact absurd h (by simp)
      · rintro ⟨st2, hstep2, -⟩
        rw [hstep] at hstep2
        have := (Option.some.inj hstep2)
        exact absurd (congrArg Prod.fst this) (by simp)
    | none =>
      obtain ⟨r, st2, hloop, hshape, hiff⟩ :=
        ih st1 (fun x hx => hok x (by simp [hx])) (hlen.trans hst)
      refine ⟨r, st2, by simp [getLoop, hstep, hloop], hshape, ?_⟩
      constructor
      · intro h
        exact ⟨st1, hstep, hiff.mp h⟩
      · rintro ⟨st1b, hstep2, hex⟩
        rw [hstep] at hstep2
        have heq : st1 = st1b := congrArg Prod.snd (Option.some.inj hstep2)
        exact hiff.mpr (heq ▸ hex)

/-! ### Claim C1: `get` yields a lease or a single `AllServersDown` -/

/-- C1: for an in-range shard argument on a well-shaped pool, `get` returns
either a successful `(lease, address)` pair or the single error
`AllServersDown` — never an intermediate checkout or health-check error —
and it errs exactly when every candidate (the role-matching addresses of the
shard, tried in pop order with the ban-state updates threaded through) is
exhausted without yielding a usable session. -/
theorem claim_C1_get_all_servers_down (pool : ConnectionPool) (env : GetEnv)
    (shard : Nat) (role : Option Role) (st : BanState)
    (hshard : shard < pool.addresses.length)
    (hok : ∀ a ∈ pool.addresses.getD shard [], AddrOk pool a)
    (hst : st.length = pool.addresses.length)
    (hshuffle : ∀ l, List.Perm (env.shuffle l) l) :
    ∃ r st', get pool env shard role st = some (r, st') ∧
      ((∃ sa, r = Except.ok sa) ∨ r = Except.error Error.AllServersDown) ∧
      (∀ e, r = Except.error e → e = Error.AllServersDown) ∧
      (r = Except.error Error.AllServersDown ↔
        exhausted pool env.now
          (popOrder (orderCandidates pool (env.shuffle
            ((pool.addresses.getD shard []).filter
              (fun a => roleMatches a.role role))))) st) := by
  obtain ⟨arow, harow⟩ : ∃ r, pool.addresses[shard]? = some r := by
    rw [List.getElem?_eq_getElem hshard]
    exact ⟨_, rfl⟩
  have hgd : pool.addresses.getD shard [] = arow := by
    rw [List.getD_eq_getElem?_getD, harow]
    rfl
  have hgc : getCandidates pool shard role =
      some (arow.filter (fun a => roleMatches a.role role)) := by
    unfold getCandidates
    rw [harow]
    rfl
  have hmem : ∀ x ∈ popOrder (orderCandidates pool (env.shuffle
      (arow.filter (fun a => roleMatches a.role role)))), AddrOk pool x := by
    intro x hx
    have hx1 : x ∈ orderCandidates pool (env.shuffle
        (arow.filter (fun a => roleMatches a.role role))) := by
      simpa [popOrder] using hx
    have hx2 : x ∈ env.shuffle (arow.filter (fun a => roleMatches a.role role)) := by
      unfold orderCandidates at hx1
      split at hx1
      · exact ((List.perm_insertionSort _ _).mem_iff).mp hx1
      · exact hx1
    have hx3 : x ∈ arow.filter (fun a => roleMatches a.role role) :=
      ((hshuffle _).mem_iff).mp hx2
    refine hok x ?_
    rw [hgd]
    exact List.mem_of_mem_filter hx3
  obtain ⟨r, st', hloop, hshape, hiff⟩ :=
    getLoop_spec pool env.now
      (popOrder (orderCandidates pool (env.shuffle
        (arow.filter (fun a => roleMatches a.role role))))) st hmem hst
  refine ⟨r, st', ?_, hshape, ?_, ?_⟩
  · unfold get
    rw [hgc]
    exact hloop
  · intro e he
    rcases hshape with ⟨sa, rfl⟩ | rfl
    · exact absurd he (by simp)
    · exact (Except.error.inj he).symm
  · rw [hgd]
    exact hiff

/-- Fixture: a deterministic `get` environment (identity shuffle). -/
def fixEnv : GetEnv := { shuffle := id, now := 0 }

/-- Witness for C1 on a concrete pool. -/
theorem claim_C1_witness :
    ∃ r st', get fixPool fixEnv 0 (some Role.Replica) [[]] = some (r, st') ∧
      ((∃ sa, r = Except.ok sa) ∨ r = Except.error Error.AllServersDown) := by
  obtain ⟨r, st', h1, h2, h3, h4⟩ := claim_C1_get_all_servers_down fixPool fixEnv
    0 (some Role.Replica) [[]] (by decide) (by decide) (by decide)
    (fun l => List.Perm.refl l)
  exact ⟨r, st', h1, h2⟩

end Pgcat
